import Mathlib

/-!
Shallow embedding of the quantization-parameter core of
`onnxruntime/python/tools/quantization/quant_utils.py`.

Floating-point scalars of the source (numpy float16/float32/float64) are
modelled as exact rationals; the per-operation rounding of the underlying
floating formats is abstracted away, except where the source's behaviour
depends on floating-point features that rationals lack (the smallest normal
value used by the degenerate-scale test, modelled via the `tiny` constant of
the input precision, and division by zero on the float8 path, modelled
explicitly).  numpy integer dtypes wrap on conversion, modelled by `castWrap`.
numpy's `round` is round-half-to-even, modelled by `roundHalfEven`.
-/

namespace QuantUtils

/-- The five storage types accepted by the module
(`TensorProto.INT8 / UINT8 / INT16 / UINT16 / FLOAT8E4M3FN`). -/
inductive QType
  | int8
  | uint8
  | int16
  | uint16
  | float8e4m3fn
deriving DecidableEq

/-- The floating-point precision of the real-valued inputs (the source
restricts weight data to numpy float32 or float16). -/
inductive FloatPrec
  | fp32
  | fp16
deriving DecidableEq

/-- `numpy.finfo(dtype).tiny`: the smallest positive normal value of the
precision, used by `compute_scale_zp`'s degenerate-scale test. -/
def tiny : FloatPrec → ℚ
  | .fp32 => 1 / 2 ^ 126
  | .fp16 => 1 / 2 ^ 14

/-- Smallest value representable by the storage dtype (for float8 the raw
code range 0..255 is used, as the NaN check reads the codes as uint8). -/
def dtypeLo : QType → ℤ
  | .int8 => -128
  | .uint8 => 0
  | .int16 => -32768
  | .uint16 => 0
  | .float8e4m3fn => 0

/-- Largest value representable by the storage dtype. -/
def dtypeHi : QType → ℤ
  | .int8 => 127
  | .uint8 => 255
  | .int16 => 32767
  | .uint16 => 65535
  | .float8e4m3fn => 255

/-- numpy conversion to an integer dtype (`numpy.array(v, dtype=...)`,
`astype`) wraps modulo the cardinality of the dtype. -/
def castWrap (t : QType) (x : ℤ) : ℤ :=
  dtypeLo t + (x - dtypeLo t) % (dtypeHi t - dtypeLo t + 1)

/-- Error values of the source, by the Python exception class raised. -/
inductive QErr
  | valueError (msg : String)
  | notImplemented (msg : String)
  | typeError (msg : String)
  | assertionError (msg : String)
  | runtimeError (msg : String)
deriving DecidableEq

deriving instance DecidableEq for Except

/-- `ONNX_INT_TYPE_RANGE`: full representable range per storage type. -/
def ONNX_INT_TYPE_RANGE : QType → Option (ℤ × ℤ)
  | .uint8 => some (0, 255)
  | .int8 => some (-128, 127)
  | .uint16 => some (0, 65535)
  | .int16 => some (-32768, 32767)
  | .float8e4m3fn => none

/-- `ONNX_INT_TYPE_SYMMETRIC_RANGE`: symmetric range for the signed types. -/
def ONNX_INT_TYPE_SYMMETRIC_RANGE : QType → Option (ℤ × ℤ)
  | .int8 => some (-127, 127)
  | .int16 => some (-32767, 32767)
  | _ => none

/-- `ONNX_INT_TYPE_REDUCED_RANGE`: halved range per storage type. -/
def ONNX_INT_TYPE_REDUCED_RANGE : QType → Option (ℤ × ℤ)
  | .uint8 => some (0, 127)
  | .int8 => some (-64, 64)
  | .uint16 => some (0, 32767)
  | .int16 => some (-16384, 16384)
  | .float8e4m3fn => none

/-- `get_qmin_qmax_for_qType(qType, reduce_range, symmetric)`: selects the
representable range.  Float8 raises `NotImplementedError`; a missing table
entry raises `ValueError`; the final `qmin <= 0 <= qmax` check raises
`ValueError`. -/
def get_qmin_qmax_for_qType (qType : QType) (reduce_range : Bool)
    ( symmetric : Bool) : Except QErr (ℤ × ℤ) :=
  if qType = .float8e4m3fn then
    .error (.notImplemented "This function is not implemented for float 8 as not needed.")
  else
    let qrange : Option (ℤ × ℤ) :=
      if reduce_range then ONNX_INT_TYPE_REDUCED_RANGE qType
      else if symmetric ∧ (ONNX_INT_TYPE_SYMMETRIC_RANGE qType).isSome then
        ONNX_INT_TYPE_SYMMETRIC_RANGE qType
      else ONNX_INT_TYPE_RANGE qType
    match qrange with
    | none => .error (.valueError "Unexpected data type requested.")
    | some (qmin, qmax) =>
      if qmin > 0 ∨ qmax < 0 then
        .error (.valueError "qmin and qmax must meet requirement qmin <= 0 <= qmax")
      else
        .ok (qmin, qmax)

/-- `numpy.round`: round to the nearest integer, ties to the even integer. -/
def roundHalfEven (q : ℚ) : ℤ :=
  let n := ⌊q⌋
  if q < (n : ℚ) + 1 / 2 then n
  else if (n : ℚ) + 1 / 2 < q then n + 1
  else if n % 2 = 0 then n else n + 1

/-- The range adjustment performed at the head of `compute_scale_zp`
(lines 242-252): clamp so that `rmin <= 0 <= rmax`, enforce the optional
minimum real range, then symmetrize when requested. -/
def adjustedRange (rmin rmax : ℚ) (min_real_range : Option ℚ)
    ( symmetric : Bool) : ℚ × ℚ :=
  let rmin1 := min rmin 0
  let rmax1 := max rmax 0
  let rmax2 := match min_real_range with
    | some m => max rmax1 (rmin1 + m)
    | none => rmax1
  if symmetric then
    let absmax := max |rmin1| |rmax2|
    (-absmax, absmax)
  else
    (rmin1, rmax2)

/-- The scale `(rmax - rmin) / (qmax - qmin)` computed by `compute_scale_zp`
on the adjusted range (the source computes it in float64; here exact). -/
def scaleOf (rmin rmax : ℚ) (qmin qmax : ℤ) (min_real_range : Option ℚ)
    ( symmetric : Bool) : ℚ :=
  let r := adjustedRange rmin rmax min_real_range symmetric
  (r.2 - r.1) / ((qmax : ℚ) - (qmin : ℚ))

/-- `compute_scale_zp(rmin, rmax, qmin, qmax, symmetric, min_real_range)`.
`prec` is the floating dtype of `rmin`/`rmax` (carried by the numpy arrays in
the source) and `qt` the integer dtype of `qmin`/`qmax`, to which the zero
point is converted (`dtype=qmin.dtype`, a wrapping conversion).  The source's
`assert scale >= 0` is the `assertionError` branch; its `assert qmin <= qmax`
is implied by the initial `qmin <= 0 <= qmax` check and omitted. -/
def compute_scale_zp (prec : FloatPrec) (qt : QType) (rmin rmax : ℚ)
    (qmin qmax : ℤ) ( symmetric : Bool) (min_real_range : Option ℚ) :
    Except QErr (ℤ × ℚ) :=
  if qmin > 0 ∨ qmax < 0 then
    .error (.valueError "qmin and qmax must meet requirement qmin <= 0 <= qmax")
  else
    let scale := scaleOf rmin rmax qmin qmax min_real_range symmetric
    if scale < 0 then .error (.assertionError "scale issue")
    else if scale < tiny prec then
      .ok (0, 1)
    else if symmetric then
      .ok (castWrap qt (roundHalfEven (((qmin : ℚ) + (qmax : ℚ)) / 2)), scale)
    else
      .ok (castWrap qt (roundHalfEven ((qmin : ℚ) -
        (adjustedRange rmin rmax min_real_range symmetric).1 / scale)), scale)

/-- Modelled from the spec: decode of an E4M3FN code (1 sign, 4 exponent,
3 mantissa bits, no infinities); the two NaN codes (low seven bits all ones)
decode to `none`.  The decoder itself lives in the `onnx` package
(`float8e4m3_to_float32`), outside this repository. -/
def e4m3fnDecode (i : ℕ) : Option ℚ :=
  let sign : ℚ := if i ≥ 128 then -1 else 1
  let e := i / 8 % 16
  let m := i % 8
  if e = 15 ∧ m = 7 then none
  else if e = 0 then some (sign * m / 2 ^ 9)
  else some (sign * ((8 + m : ℚ) / 8) * (2 : ℚ) ^ ((e : ℤ) - 7))

/-- The finite, non-NaN values representable in E4M3FN, as collected by
`compute_scale_zp_float8` into `FLOAT8_DISTRIBUTIONS`. -/
def float8e4m3fn_values : List ℚ :=
  (List.range 256).filterMap e4m3fnDecode

/-- A float32 value fed to the float8 encoder: NaN, an infinity, or finite. -/
inductive F8Input
  | nan
  | pinf
  | ninf
  | fin (v : ℚ)

/-- Modelled from the spec: the division `X / scale` performed by the onnx
reference evaluator's QuantizeLinear in IEEE float32 arithmetic.  The result
is exact except on division by zero, where IEEE yields NaN for 0/0 and a
signed infinity otherwise. -/
def floatDiv (x s : ℚ) : F8Input :=
  if s = 0 then
    if x = 0 then .nan else if x > 0 then .pinf else .ninf
  else .fin (x / s)

/-- Modelled from the spec: the saturating round-to-nearest E4M3FN encoder of
the onnx reference evaluator (outside this repository).  NaN encodes to the
NaN code 127; values beyond the largest finite magnitude 448 saturate to the
largest finite codes; finite values go to the nearest representable value,
ties toward the even code. -/
def e4m3fnEncode : F8Input → ℕ
  | .nan => 127
  | .pinf => 126
  | .ninf => 254
  | .fin v =>
    if v > 448 then 126
    else if v < -448 then 254
    else
      (List.range 256).foldl (fun best c =>
        match e4m3fnDecode c, e4m3fnDecode best with
        | some vc, some vb =>
          if |v - vc| < |v - vb| ∨ (|v - vc| = |v - vb| ∧ c % 2 = 0 ∧ best % 2 = 1)
          then c else best
        | some _, none => c
        | none, _ => best) 0

/-- The effective lower clip bound of `quantize_nparray`:
`cliplow = max(qmin, low) if low is not None else qmin`. -/
def cliplowOf (qmin : ℤ) (low : Option ℤ) : ℤ :=
  match low with
  | some l => max qmin l
  | none => qmin

/-- The effective upper clip bound of `quantize_nparray`:
`cliphigh = min(qmax, high) if high is not None else qmax`. -/
def cliphighOf (qmax : ℤ) (high : Option ℤ) : ℤ :=
  match high with
  | some hv => min qmax hv
  | none => qmax

/-- `quantize_nparray(qType, arr, scale, zero_point, low, high)`.  The float8
path runs the reference QuantizeLinear (returning the raw uint8 codes); the
integer path computes `clip(round(arr / scale) + zero_point, cliplow,
cliphigh)` and converts to the storage dtype, where the clip bounds are the
type's range at `reduce_range=False, symmetric=True`, narrowed by the
caller's optional `low`/`high`.  `numpy.clip(v, lo, hi)` is
`min(max(v, lo), hi)`. -/
def quantize_nparray (qt : QType) (arr : List ℚ) (scale : ℚ)
    (zero_point : ℤ) (low high : Option ℤ) : Except QErr (List ℤ) :=
  if qt = .float8e4m3fn then
    if zero_point ≠ 0 then
      .error (.notImplemented "zero point is expected to be null for float 8")
    else
      .ok (arr.map (fun x => ((e4m3fnEncode (floatDiv x scale) : ℕ) : ℤ)))
  else
    match get_qmin_qmax_for_qType qt false true with
    | .error e => .error e
    | .ok (qmin, qmax) =>
      let cliplow := cliplowOf qmin low
      let cliphigh := cliphighOf qmax high
      .ok (arr.map (fun x =>
        castWrap qt (min (max (roundHalfEven (x / scale) + zero_point) cliplow) cliphigh)))

/-- Mean of a data array (`numpy.mean`). -/
def npMean (data : List ℚ) : ℚ :=
  data.sum / (data.length : ℚ)

/-- Population variance of a data array: the square of `numpy.std`. -/
def npVariance (data : List ℚ) : ℚ :=
  ((data.map (fun x => (x - npMean data) ^ 2)).sum) / (data.length : ℚ)

/-- `compute_scale_zp_float8(element_type, std)` for E4M3FN: zero point 0 and
scale `std / std_f8`.  `std_f8`, the standard deviation of
`float8e4m3fn_values`, is an irrational square root, so it is taken as the
parameter `stdF8` (characterized in theorems by `stdF8 ^ 2 =
npVariance float8e4m3fn_values`). -/
def compute_scale_zp_float8 (std stdF8 : ℚ) : ℤ × ℚ :=
  (0, std / stdF8)

/-- Minimum of a data array (`data.min()`), for nonempty `data`. -/
def npMin (x : ℚ) (xs : List ℚ) : ℚ :=
  xs.foldl min x

/-- Maximum of a data array (`data.max()`), for nonempty `data`. -/
def npMax (x : ℚ) (xs : List ℚ) : ℚ :=
  xs.foldl max x

/-- `quantize_data(data, qType, symmetric, reduce_range, min_real_range,
rmin_override, rmax_override)`.  `prec` is the floating dtype of `data`.
`std` models `numpy.std(data)` (an irrational square root; characterized in
theorems by `std ^ 2 = npVariance data`, `0 ≤ std`) and `stdF8` the float8
distribution's standard deviation; both are used only on the float8 path.
The integer branch leaves `zero_point = 0`, `scale = 1` when the data array
is empty. -/
def quantize_data (prec : FloatPrec) (data : List ℚ) (qt : QType)
    ( symmetric : Bool) (reduce_range : Bool) (min_real_range : Option ℚ)
    (rmin_override rmax_override : Option ℚ) (std stdF8 : ℚ) :
    Except QErr (ℚ × ℚ × ℤ × ℚ × List ℤ) :=
  let rmin : ℚ := match rmin_override with
    | some v => v
    | none => match data with
      | [] => 0
      | x :: xs => npMin x xs
  let rmax : ℚ := match rmax_override with
    | some v => v
    | none => match data with
      | [] => 0
      | x :: xs => npMax x xs
  if qt = .float8e4m3fn then
    if reduce_range then
      .error (.runtimeError "Unsupported option reduce_range=True for float 8.")
    else
      let zs := compute_scale_zp_float8 std stdF8
      match quantize_nparray qt data zs.2 zs.1 none none with
      | .error e => .error e
      | .ok quantized_data =>
        if quantized_data.any (fun c => c % 128 == 127) then
          .error (.runtimeError "One of the quantized value is NaN data")
        else
          .ok (rmin, rmax, zs.1, zs.2, quantized_data)
  else if qt = .int8 ∨ qt = .uint8 ∨ qt = .int16 ∨ qt = .uint16 then
    if data.length ≠ 0 then
      match get_qmin_qmax_for_qType qt reduce_range symmetric with
      | .error e => .error e
      | .ok (qmin, qmax) =>
        match compute_scale_zp prec qt rmin rmax qmin qmax symmetric min_real_range with
        | .error e => .error e
        | .ok (zero_point, scale) =>
          match quantize_nparray qt data scale zero_point none none with
          | .error e => .error e
          | .ok quantized_data => .ok (rmin, rmax, zero_point, scale, quantized_data)
    else
      match quantize_nparray qt data 1 0 none none with
      | .error e => .error e
      | .ok quantized_data => .ok (rmin, rmax, 0, 1, quantized_data)
  else
    .error (.valueError "Unexpected value for qType")

/-- The helper routines of the module that `quantize_data` may invoke. -/
inductive Helper
  | compute_scale_zp
  | compute_scale_zp_float8
  | quantize_nparray
deriving DecidableEq

/-- The sequence of helper routines invoked by `quantize_data`, mirroring its
control flow: the float8 branch calls the float8 solver then the quantizer;
the integer branch calls the solver only when the data array is nonempty, and
always calls the quantizer. -/
def quantize_data_invoked (data : List ℚ) (qt : QType) : List Helper :=
  if qt = .float8e4m3fn then
    [Helper.compute_scale_zp_float8, Helper.quantize_nparray]
  else if qt = .int8 ∨ qt = .uint8 ∨ qt = .int16 ∨ qt = .uint16 then
    if data.length ≠ 0 then
      [Helper.compute_scale_zp, Helper.quantize_nparray]
    else
      [Helper.quantize_nparray]
  else []

/-! ### Basic facts about the model's building blocks -/

theorem tiny_pos (p : FloatPrec) : 0 < tiny p := by
  cases p <;> norm_num [tiny]

theorem castWrap_eq_self (t : QType) (x : ℤ) (h1 : dtypeLo t ≤ x)
    (h2 : x ≤ dtypeHi t) : castWrap t x = x := by
  cases t <;> simp only [castWrap, dtypeLo, dtypeHi] at h1 h2 ⊢ <;>
    norm_num <;> omega

theorem le_roundHalfEven_of (a : ℤ) (q : ℚ) (h : (a : ℚ) - 1 / 2 < q) :
    a ≤ roundHalfEven q := by
  have h0 : (⌊q⌋ : ℚ) ≤ q := Int.floor_le q
  have h1 : q < (⌊q⌋ : ℚ) + 1 := Int.lt_floor_add_one q
  simp only [roundHalfEven]
  split_ifs with ha hb hc
  · -- result ⌊q⌋, with q - ⌊q⌋ < 1/2, so q < ⌊q⌋ + 1/2 and a - 1/2 < q
    have : (a : ℚ) < (⌊q⌋ : ℚ) + 1 := by linarith
    have : a < ⌊q⌋ + 1 := by exact_mod_cast this
    omega
  · -- result ⌊q⌋ + 1 ≥ ⌊q⌋ + 1 > q - ... and a - 1/2 < q < ⌊q⌋ + 1
    have : (a : ℚ) - 1 / 2 < (⌊q⌋ : ℚ) + 1 := by linarith
    have : (a : ℚ) < (⌊q⌋ : ℚ) + 1 + 1 / 2 := by linarith
    have : (a : ℚ) < ((⌊q⌋ + 2 : ℤ) : ℚ) := by push_cast; linarith
    have : a < ⌊q⌋ + 2 := by exact_mod_cast this
    omega
  · -- tie with even floor, result ⌊q⌋; q = ⌊q⌋ + 1/2 so a - 1/2 < ⌊q⌋ + 1/2
    have : (a : ℚ) < (⌊q⌋ : ℚ) + 1 := by linarith
    have : a < ⌊q⌋ + 1 := by exact_mod_cast this
    omega
  · have : (a : ℚ) < ((⌊q⌋ + 2 : ℤ) : ℚ) := by push_cast; linarith
    have : a < ⌊q⌋ + 2 := by exact_mod_cast this
    omega

theorem roundHalfEven_le_of (b : ℤ) (q : ℚ) (h : q < (b : ℚ) + 1 / 2) :
    roundHalfEven q ≤ b := by
  have h0 : (⌊q⌋ : ℚ) ≤ q := Int.floor_le q
  simp only [roundHalfEven]
  split_ifs with ha hb hc
  · have : (⌊q⌋ : ℚ) < (b : ℚ) + 1 / 2 := by linarith
    have : (⌊q⌋ : ℚ) < ((b + 1 : ℤ) : ℚ) := by push_cast; linarith
    have : ⌊q⌋ < b + 1 := by exact_mod_cast this
    omega
  · -- q - ⌊q⌋ > 1/2 so ⌊q⌋ < q - 1/2 < b, hence ⌊q⌋ + 1 ≤ b
    have : (⌊q⌋ : ℚ) < (b : ℚ) := by linarith
    have : ⌊q⌋ < b := by exact_mod_cast this
    omega
  · have : (⌊q⌋ : ℚ) < ((b + 1 : ℤ) : ℚ) := by push_cast; linarith
    have : ⌊q⌋ < b + 1 := by exact_mod_cast this
    omega
  · -- tie, q = ⌊q⌋ + 1/2 < b + 1/2 so ⌊q⌋ < b
    have h2 : q = (⌊q⌋ : ℚ) + 1 / 2 := le_antisymm (not_lt.mp hb) (not_lt.mp ha)
    have : (⌊q⌋ : ℚ) < (b : ℚ) := by linarith
    have : ⌊q⌋ < b := by exact_mod_cast this
    omega

theorem le_roundHalfEven (a : ℤ) (q : ℚ) (h : (a : ℚ) ≤ q) :
    a ≤ roundHalfEven q :=
  le_roundHalfEven_of a q (by linarith)

theorem roundHalfEven_le (b : ℤ) (q : ℚ) (h : q ≤ (b : ℚ)) :
    roundHalfEven q ≤ b :=
  roundHalfEven_le_of b q (by linarith)

theorem abs_roundHalfEven_sub (q : ℚ) : |(roundHalfEven q : ℚ) - q| ≤ 1 / 2 := by
  have h0 : (⌊q⌋ : ℚ) ≤ q := Int.floor_le q
  have h1 : q < (⌊q⌋ : ℚ) + 1 := Int.lt_floor_add_one q
  simp only [roundHalfEven]
  split_ifs with ha hb hc
  · rw [abs_le]; constructor <;> linarith
  · push_cast; rw [abs_le]; constructor <;> linarith
  · have h2 : q = (⌊q⌋ : ℚ) + 1 / 2 := le_antisymm (not_lt.mp hb) (not_lt.mp ha)
    rw [abs_le]; constructor <;> linarith
  · have h2 : q = (⌊q⌋ : ℚ) + 1 / 2 := le_antisymm (not_lt.mp hb) (not_lt.mp ha)
    push_cast; rw [abs_le]; constructor <;> linarith

theorem foldl_min_le_init (xs : List ℚ) (a : ℚ) : xs.foldl min a ≤ a := by
  induction xs generalizing a with
  | nil => simp
  | cons z zs ih =>
    simpa using le_trans (ih (min a z)) (min_le_left a z)

theorem foldl_min_le_mem (xs : List ℚ) (a y : ℚ) (hy : y ∈ xs) :
    xs.foldl min a ≤ y := by
  induction xs generalizing a with
  | nil => cases hy
  | cons z zs ih =>
    simp only [List.foldl_cons]
    rcases List.mem_cons.mp hy with h | h
    · subst h
      exact le_trans (foldl_min_le_init zs (min a y)) (min_le_right a y)
    · exact ih (min a z) h

theorem init_le_foldl_max (xs : List ℚ) (a : ℚ) : a ≤ xs.foldl max a := by
  induction xs generalizing a with
  | nil => simp
  | cons z zs ih =>
    simpa using le_trans (le_max_left a z) (ih (max a z))

theorem mem_le_foldl_max (xs : List ℚ) (a y : ℚ) (hy : y ∈ xs) :
    y ≤ xs.foldl max a := by
  induction xs generalizing a with
  | nil => cases hy
  | cons z zs ih =>
    simp only [List.foldl_cons]
    rcases List.mem_cons.mp hy with h | h
    · subst h
      exact le_trans (le_max_right a y) (init_le_foldl_max zs (max a y))
    · exact ih (max a z) h

theorem npMin_le (x : ℚ) (xs : List ℚ) (y : ℚ) (hy : y ∈ x :: xs) :
    npMin x xs ≤ y := by
  rcases List.mem_cons.mp hy with h | h
  · subst h; exact foldl_min_le_init xs y
  · exact foldl_min_le_mem xs x y h

theorem le_npMax (x : ℚ) (xs : List ℚ) (y : ℚ) (hy : y ∈ x :: xs) :
    y ≤ npMax x xs := by
  rcases List.mem_cons.mp hy with h | h
  · subst h; exact init_le_foldl_max xs y
  · exact mem_le_foldl_max xs x y h

/-! ### Structure of the adjusted range and the solver -/

theorem adjustedRange_facts (rmin rmax : ℚ) (m : Option ℚ) (sym : Bool) :
    (adjustedRange rmin rmax m sym).1 ≤ 0 ∧ 0 ≤ (adjustedRange rmin rmax m sym).2 ∧
      (adjustedRange rmin rmax m sym).1 ≤ rmin ∧ rmax ≤ (adjustedRange rmin rmax m sym).2 := by
  have hmin1 : min rmin 0 ≤ rmin := min_le_left _ _
  have hmin2 : min rmin 0 ≤ 0 := min_le_right _ _
  have hmax1 : rmax ≤ max rmax 0 := le_max_left _ _
  have hmax2 : (0 : ℚ) ≤ max rmax 0 := le_max_right _ _
  have key : ∀ r2 : ℚ, rmax ≤ r2 → 0 ≤ r2 →
      (min rmin 0 ≤ 0 ∧ 0 ≤ r2 ∧ min rmin 0 ≤ rmin ∧ rmax ≤ r2) ∧
      (-(max |min rmin 0| |r2|) ≤ 0 ∧ 0 ≤ max |min rmin 0| |r2| ∧
        -(max |min rmin 0| |r2|) ≤ rmin ∧ rmax ≤ max |min rmin 0| |r2|) := by
    intro r2 h1 h2
    have a1 : |min rmin 0| ≤ max |min rmin 0| |r2| := le_max_left _ _
    have a2 : |r2| ≤ max |min rmin 0| |r2| := le_max_right _ _
    have a3 : -(|min rmin 0|) ≤ min rmin 0 := neg_abs_le _
    have a4 : r2 ≤ |r2| := le_abs_self _
    have a5 : (0 : ℚ) ≤ |min rmin 0| := abs_nonneg _
    refine ⟨⟨hmin2, h2, hmin1, h1⟩, ?_, ?_, ?_, ?_⟩ <;> linarith
  rcases m with _ | mv <;> rcases sym with _ | _ <;>
    simp only [adjustedRange, Bool.false_eq_true, if_false, if_true]
  · exact (key (max rmax 0) hmax1 hmax2).1
  · exact (key (max rmax 0) hmax1 hmax2).2
  · exact (key (max (max rmax 0) (min rmin 0 + mv))
      (le_trans hmax1 (le_max_left _ _)) (le_trans hmax2 (le_max_left _ _))).1
  · exact (key (max (max rmax 0) (min rmin 0 + mv))
      (le_trans hmax1 (le_max_left _ _)) (le_trans hmax2 (le_max_left _ _))).2

theorem adjustedRange_symm (rmin rmax : ℚ) (m : Option ℚ) :
    (adjustedRange rmin rmax m true).1 = -(adjustedRange rmin rmax m true).2 := by
  rcases m with _ | mv <;> simp [adjustedRange]

theorem compute_scale_zp_ok (prec : FloatPrec) (qt : QType) (rmin rmax : ℚ)
    (qmin qmax zp : ℤ) (s : ℚ) (sym : Bool) (m : Option ℚ)
    (h : compute_scale_zp prec qt rmin rmax qmin qmax sym m = .ok (zp, s)) :
    qmin ≤ 0 ∧ 0 ≤ qmax ∧
      ((scaleOf rmin rmax qmin qmax m sym < tiny prec ∧ zp = 0 ∧ s = 1) ∨
       (tiny prec ≤ scaleOf rmin rmax qmin qmax m sym ∧
        s = scaleOf rmin rmax qmin qmax m sym ∧
        zp = castWrap qt (roundHalfEven (if sym then ((qmin : ℚ) + (qmax : ℚ)) / 2
          else (qmin : ℚ) - (adjustedRange rmin rmax m sym).1 / s)))) := by
  simp only [compute_scale_zp] at h
  split_ifs at h with h1 h2 h3 h4 <;>
    simp only [Except.ok.injEq, Prod.mk.injEq, reduceCtorEq] at h
  · push_neg at h1
    exact ⟨h1.1, h1.2, Or.inl ⟨h3, h.1.symm, h.2.symm⟩⟩
  · push_neg at h1
    refine ⟨h1.1, h1.2, Or.inr ⟨not_lt.mp h3, h.2.symm, ?_⟩⟩
    rw [if_pos h4, ← h.1]
  · push_neg at h1
    refine ⟨h1.1, h1.2, Or.inr ⟨not_lt.mp h3, h.2.symm, ?_⟩⟩
    rw [if_neg h4, ← h.1, h.2]

theorem scaleOf_mul (rmin rmax : ℚ) (qmin qmax : ℤ) (m : Option ℚ) (sym : Bool)
    (hs : 0 < scaleOf rmin rmax qmin qmax m sym) :
    (adjustedRange rmin rmax m sym).2 - (adjustedRange rmin rmax m sym).1 =
      scaleOf rmin rmax qmin qmax m sym * ((qmax : ℚ) - (qmin : ℚ)) := by
  have hd : ((qmax : ℚ) - (qmin : ℚ)) ≠ 0 := by
    intro h0
    rw [scaleOf, h0, div_zero] at hs
    exact lt_irrefl 0 hs
  rw [scaleOf] at hs ⊢
  field_simp

/-- The real-valued zero point `qmin - rmin' / scale` targeted by the
non-degenerate solver branches lies in `[qmin, qmax]`, and the symmetric
branch's `(qmin + qmax) / 2` coincides with it. -/
theorem zpReal_bounds (rmin rmax : ℚ) (qmin qmax : ℤ) (m : Option ℚ) (sym : Bool)
    (hq1 : qmin ≤ 0) (hq2 : 0 ≤ qmax)
    (hs : 0 < scaleOf rmin rmax qmin qmax m sym) :
    ((qmin : ℚ) ≤ (qmin : ℚ) -
        (adjustedRange rmin rmax m sym).1 / scaleOf rmin rmax qmin qmax m sym ∧
      (qmin : ℚ) - (adjustedRange rmin rmax m sym).1 / scaleOf rmin rmax qmin qmax m sym
        ≤ (qmax : ℚ)) ∧
    (sym = true → ((qmin : ℚ) + (qmax : ℚ)) / 2 = (qmin : ℚ) -
        (adjustedRange rmin rmax m sym).1 / scaleOf rmin rmax qmin qmax m sym) := by
  obtain ⟨ht0, hT0, -, -⟩ := adjustedRange_facts rmin rmax m sym
  set t := (adjustedRange rmin rmax m sym).1 with hts
  set T := (adjustedRange rmin rmax m sym).2 with hTs
  set s := scaleOf rmin rmax qmin qmax m sym with hss
  have hmul : T - t = s * ((qmax : ℚ) - (qmin : ℚ)) := scaleOf_mul rmin rmax qmin qmax m sym hs
  have hts' : t / s ≤ 0 := by
    rcases le_or_lt (t / s) 0 with h | h
    · exact h
    · exfalso
      have h2 := mul_pos h hs
      rw [div_mul_cancel₀ t hs.ne'] at h2
      linarith
  have hup : -(t / s) ≤ (qmax : ℚ) - (qmin : ℚ) := by
    rw [← neg_div]
    rw [div_le_iff hs]
    have h3 : -t ≤ T - t := by linarith
    linarith [hmul, mul_comm s ((qmax : ℚ) - (qmin : ℚ))]
  refine ⟨⟨by linarith, by linarith⟩, ?_⟩
  intro hsym
  subst hsym
  have htT : t = -T := adjustedRange_symm rmin rmax m
  have hd : ((qmax : ℚ) - (qmin : ℚ)) ≠ 0 := by
    intro h0
    rw [hss, scaleOf, h0, div_zero] at hs
    exact lt_irrefl 0 hs
  have h2T : 2 * T = s * ((qmax : ℚ) - (qmin : ℚ)) := by
    have h4 := hmul
    rw [htT] at h4
    linarith [h4]
  have hTs2 : T / s = ((qmax : ℚ) - (qmin : ℚ)) / 2 := by
    rw [div_eq_div_iff hs.ne' (two_ne_zero : (2 : ℚ) ≠ 0)]
    linarith [h2T, mul_comm s ((qmax : ℚ) - (qmin : ℚ))]
  rw [htT, neg_div, hTs2]
  ring

/-- The integer zero point produced by the non-degenerate solver branches is
within half a step of the real-valued target `qmin - rmin' / scale`. -/
theorem zp_close (rmin rmax : ℚ) (qmin qmax : ℤ) (m : Option ℚ) (sym : Bool)
    (hq1 : qmin ≤ 0) (hq2 : 0 ≤ qmax)
    (hs : 0 < scaleOf rmin rmax qmin qmax m sym) :
    |((roundHalfEven (if sym then ((qmin : ℚ) + (qmax : ℚ)) / 2
        else (qmin : ℚ) - (adjustedRange rmin rmax m sym).1 /
          scaleOf rmin rmax qmin qmax m sym) : ℤ) : ℚ) -
      ((qmin : ℚ) - (adjustedRange rmin rmax m sym).1 /
        scaleOf rmin rmax qmin qmax m sym)| ≤ 1 / 2 := by
  obtain ⟨-, hsym⟩ := zpReal_bounds rmin rmax qmin qmax m sym hq1 hq2 hs
  cases sym with
  | false => simpa using abs_roundHalfEven_sub _
  | true =>
    rw [if_pos rfl, hsym rfl]
    exact abs_roundHalfEven_sub _

/-- Pre-clip quantized values of data within the adjusted real range lie in
`[qmin - 1, qmax + 1]`. -/
theorem qpre_bounds (s : ℚ) (hs : 0 < s) (t T x : ℚ) (qmin qmax zp : ℤ)
    (hdq : T - t = s * ((qmax : ℚ) - (qmin : ℚ)))
    (hzp : |(zp : ℚ) - ((qmin : ℚ) - t / s)| ≤ 1 / 2)
    (hxl : t ≤ x) (hxu : x ≤ T) :
    qmin - 1 ≤ roundHalfEven (x / s) + zp ∧ roundHalfEven (x / s) + zp ≤ qmax + 1 := by
  obtain ⟨hz1, hz2⟩ := abs_le.mp hzp
  obtain ⟨hr1, hr2⟩ := abs_le.mp (abs_roundHalfEven_sub (x / s))
  have hu1 : t / s ≤ x / s := (div_le_div_right hs).mpr hxl
  have hu2 : x / s ≤ T / s := (div_le_div_right hs).mpr hxu
  have hq : T / s - t / s = (qmax : ℚ) - (qmin : ℚ) := by
    rw [div_sub_div_same, hdq]
    exact mul_div_cancel_left₀ _ hs.ne'
  constructor
  · have : ((qmin - 1 : ℤ) : ℚ) ≤ ((roundHalfEven (x / s) + zp : ℤ) : ℚ) := by
      push_cast
      linarith
    exact_mod_cast this
  · have : ((roundHalfEven (x / s) + zp : ℤ) : ℚ) ≤ ((qmax + 1 : ℤ) : ℚ) := by
      push_cast
      linarith
    exact_mod_cast this

/-- Core round-trip bound: when the solver's range is nested in the clip
window, the dequantized value is within half a scale step of the input. -/
theorem roundtrip_core (s : ℚ) (hs : 0 < s) (t T x : ℚ)
    (qmin qmax Qmin Qmax zp : ℤ)
    (hdq : T - t = s * ((qmax : ℚ) - (qmin : ℚ)))
    (hzp : |(zp : ℚ) - ((qmin : ℚ) - t / s)| ≤ 1 / 2)
    (hn1 : Qmin ≤ qmin) (hn2 : qmax ≤ Qmax)
    (hxl : t ≤ x) (hxu : x ≤ T) :
    |s * (((min (max (roundHalfEven (x / s) + zp) Qmin) Qmax : ℤ) : ℚ) - (zp : ℚ))
      - x| ≤ s / 2 := by
  obtain ⟨hz1, hz2⟩ := abs_le.mp hzp
  obtain ⟨hr1, hr2⟩ := abs_le.mp (abs_roundHalfEven_sub (x / s))
  have hu1 : t / s ≤ x / s := (div_le_div_right hs).mpr hxl
  have hu2 : x / s ≤ T / s := (div_le_div_right hs).mpr hxu
  have hq : T / s - t / s = (qmax : ℚ) - (qmin : ℚ) := by
    rw [div_sub_div_same, hdq]
    exact mul_div_cancel_left₀ _ hs.ne'
  set p := roundHalfEven (x / s) + zp with hp
  set q := min (max p Qmin) Qmax with hqdef
  have key : |((q : ℤ) : ℚ) - (zp : ℚ) - x / s| ≤ 1 / 2 := by
    have hTt : t ≤ T := le_trans hxl hxu
    have hdqnn : (0 : ℚ) ≤ (qmax : ℚ) - (qmin : ℚ) := by
      by_contra hneg
      push_neg at hneg
      have h0 : s * ((qmax : ℚ) - (qmin : ℚ)) < 0 := mul_neg_of_pos_of_neg hs hneg
      linarith [hdq]
    have hQ : Qmin ≤ Qmax := by
      have : qmin ≤ qmax := by exact_mod_cast (by linarith : (qmin : ℚ) ≤ (qmax : ℚ))
      omega
    rcases le_or_lt Qmin p with hc1 | hc1
    · rcases le_or_lt p Qmax with hc2 | hc2
      · -- no clipping
        have hqp : q = p := by omega
        rw [hqp, hp]
        push_cast
        rw [abs_le]
        constructor <;> linarith
      · -- clipped above to Qmax
        have hqp : q = Qmax := by omega
        have hple : Qmax + 1 ≤ p := by omega
        have hple' : ((Qmax + 1 : ℤ) : ℚ) ≤ ((p : ℤ) : ℚ) := by exact_mod_cast hple
        have hn2' : ((qmax : ℤ) : ℚ) ≤ ((Qmax : ℤ) : ℚ) := by exact_mod_cast hn2
        rw [hqp]
        rw [hp] at hple'
        push_cast at hple' ⊢
        rw [abs_le]
        constructor <;> linarith
    · -- clipped below to Qmin
      have hqp : q = Qmin := by omega
      have hple : p ≤ Qmin - 1 := by omega
      have hple' : ((p : ℤ) : ℚ) ≤ ((Qmin - 1 : ℤ) : ℚ) := by exact_mod_cast hple
      have hn1' : ((Qmin : ℤ) : ℚ) ≤ ((qmin : ℤ) : ℚ) := by exact_mod_cast hn1
      rw [hqp]
      rw [hp] at hple'
      push_cast at hple' ⊢
      rw [abs_le]
      constructor <;> linarith
  have hrw : s * (((q : ℤ) : ℚ) - (zp : ℚ)) - x =
      s * (((q : ℤ) : ℚ) - (zp : ℚ) - x / s) := by
    have hx : s * (x / s) = x := mul_div_cancel₀ x hs.ne'
    calc s * (((q : ℤ) : ℚ) - (zp : ℚ)) - x
        = s * (((q : ℤ) : ℚ) - (zp : ℚ)) - s * (x / s) := by rw [hx]
      _ = s * (((q : ℤ) : ℚ) - (zp : ℚ) - x / s) := by ring
  rw [hrw, abs_mul, abs_of_pos hs]
  calc s * |((q : ℤ) : ℚ) - (zp : ℚ) - x / s| ≤ s * (1 / 2) := by
        exact mul_le_mul_of_nonneg_left key hs.le
    _ = s / 2 := by ring

/-- The clip window of `quantize_nparray` (the type's range at
`reduce_range=False, symmetric=True`) is inside the storage dtype's range. -/
theorem clip_range_in_dtype (qt : QType) (Qmin Qmax : ℤ)
    (hclip : get_qmin_qmax_for_qType qt false true = .ok (Qmin, Qmax)) :
    dtypeLo qt ≤ Qmin ∧ Qmax ≤ dtypeHi qt ∧ Qmin ≤ 0 ∧ 0 ≤ Qmax := by
  cases qt <;>
    simp [get_qmin_qmax_for_qType, ONNX_INT_TYPE_RANGE,
      ONNX_INT_TYPE_SYMMETRIC_RANGE, ONNX_INT_TYPE_REDUCED_RANGE] at hclip <;>
    simp only [dtypeLo, dtypeHi] <;> omega

theorem quantize_nparray_int_ok (qt : QType) (arr : List ℚ) (scale : ℚ)
    (zp : ℤ) (Qmin Qmax : ℤ) (qs : List ℤ)
    (hclip : get_qmin_qmax_for_qType qt false true = .ok (Qmin, Qmax))
    (hq : quantize_nparray qt arr scale zp none none = .ok qs) :
    qs = arr.map (fun x =>
      castWrap qt (min (max (roundHalfEven (x / scale) + zp) Qmin) Qmax)) := by
  have hqt : qt ≠ .float8e4m3fn := by
    intro h0
    rw [h0] at hclip
    simp [get_qmin_qmax_for_qType] at hclip
  rw [quantize_nparray, if_neg hqt, hclip] at hq
  simpa [cliplowOf, cliphighOf] using hq.symm

theorem scaleOf_nonneg (rmin rmax : ℚ) (qmin qmax : ℤ) (m : Option ℚ) (sym : Bool)
    (hq1 : qmin ≤ 0) (hq2 : 0 ≤ qmax) : 0 ≤ scaleOf rmin rmax qmin qmax m sym := by
  obtain ⟨ht0, hT0, -, -⟩ := adjustedRange_facts rmin rmax m sym
  have h1 : (0 : ℚ) ≤ (adjustedRange rmin rmax m sym).2 - (adjustedRange rmin rmax m sym).1 := by
    linarith
  have h2 : (0 : ℚ) ≤ (qmax : ℚ) - (qmin : ℚ) := by
    have a : ((qmin : ℤ) : ℚ) ≤ 0 := by exact_mod_cast hq1
    have b : (0 : ℚ) ≤ ((qmax : ℤ) : ℚ) := by exact_mod_cast hq2
    linarith
  exact div_nonneg h1 h2

theorem quantize_data_cons_int (prec : FloatPrec) (x : ℚ) (xs : List ℚ)
    (qt : QType) (sym rr : Bool) (m : Option ℚ) (std stdF8 : ℚ)
    (qmin qmax zp : ℤ) (s : ℚ) (qs : List ℤ)
    (hqt : qt = .int8 ∨ qt = .uint8 ∨ qt = .int16 ∨ qt = .uint16)
    (h1 : get_qmin_qmax_for_qType qt rr sym = .ok (qmin, qmax))
    (h2 : compute_scale_zp prec qt (npMin x xs) (npMax x xs) qmin qmax sym m = .ok (zp, s))
    (h3 : quantize_nparray qt (x :: xs) s zp none none = .ok qs) :
    quantize_data prec (x :: xs) qt sym rr m none none std stdF8
      = .ok (npMin x xs, npMax x xs, zp, s, qs) := by
  have hqt8 : qt ≠ .float8e4m3fn := by
    rcases hqt with h | h | h | h <;> subst h <;> simp
  simp only [quantize_data]
  rw [if_neg hqt8, if_pos hqt, if_pos (by simp : (x :: xs).length ≠ 0)]
  simp only [h1, h2, h3]

theorem quantize_data_cons_int_inv (prec : FloatPrec) (x : ℚ) (xs : List ℚ)
    (qt : QType) (sym rr : Bool) (m : Option ℚ) (std stdF8 : ℚ)
    (rmin rmax : ℚ) (zp : ℤ) (s : ℚ) (qs : List ℤ)
    (hqt : qt = .int8 ∨ qt = .uint8 ∨ qt = .int16 ∨ qt = .uint16)
    (h : quantize_data prec (x :: xs) qt sym rr m none none std stdF8
      = .ok (rmin, rmax, zp, s, qs)) :
    rmin = npMin x xs ∧ rmax = npMax x xs ∧
      ∃ qmin qmax, get_qmin_qmax_for_qType qt rr sym = .ok (qmin, qmax) ∧
        compute_scale_zp prec qt (npMin x xs) (npMax x xs) qmin qmax sym m = .ok (zp, s) ∧
        quantize_nparray qt (x :: xs) s zp none none = .ok qs := by
  have hqt8 : qt ≠ .float8e4m3fn := by
    rcases hqt with h0 | h0 | h0 | h0 <;> subst h0 <;> simp
  simp only [quantize_data] at h
  rw [if_neg hqt8, if_pos hqt, if_pos (by simp : (x :: xs).length ≠ 0)] at h
  rcases hg : get_qmin_qmax_for_qType qt rr sym with e | ⟨qmin, qmax⟩ <;>
    simp only [hg] at h
  · simp at h
  · rcases hc : compute_scale_zp prec qt (npMin x xs) (npMax x xs) qmin qmax sym m with
      e | ⟨zp2, s2⟩ <;> simp only [hc] at h
    · simp at h
    · rcases hn : quantize_nparray qt (x :: xs) s2 zp2 none none with e | qs2 <;>
        simp only [hn] at h
      · simp at h
      · simp only [Except.ok.injEq, Prod.mk.injEq] at h
        obtain ⟨hr1, hr2, hz, hs, hqs⟩ := h
        subst hz
        subst hs
        subst hqs
        exact ⟨hr1.symm, hr2.symm, qmin, qmax, rfl, hc, hn⟩

theorem quantize_nparray_nil (qt : QType) (scale : ℚ) (zp : ℤ)
    (hqt : qt ≠ .float8e4m3fn) :
    quantize_nparray qt [] scale zp none none = .ok [] := by
  cases qt
  case float8e4m3fn => exact absurd rfl hqt
  all_goals
    simp [quantize_nparray, get_qmin_qmax_for_qType, ONNX_INT_TYPE_RANGE,
      ONNX_INT_TYPE_SYMMETRIC_RANGE, ONNX_INT_TYPE_REDUCED_RANGE, cliplowOf, cliphighOf]

theorem quantize_data_nil_int (prec : FloatPrec) (qt : QType) (sym rr : Bool)
    (m : Option ℚ) (std stdF8 : ℚ)
    (hqt : qt = .int8 ∨ qt = .uint8 ∨ qt = .int16 ∨ qt = .uint16) :
    quantize_data prec [] qt sym rr m none none std stdF8 = .ok (0, 0, 0, 1, []) := by
  have hqt8 : qt ≠ .float8e4m3fn := by
    rcases hqt with h | h | h | h <;> subst h <;> simp
  simp only [quantize_data]
  rw [if_neg hqt8, if_pos hqt, if_neg (by simp : ¬([] : List ℚ).length ≠ 0),
    quantize_nparray_nil qt 1 0 hqt8]

/-! ### Claim theorems -/

/-- C1: for all quantization bounds held in the target integer dtype (so
`dtypeLo ≤ qmin`, `qmax ≤ dtypeHi`) with `qmin ≤ 0 ≤ qmax` (enforced by the
function), and all real ranges in either floating precision, the zero point
returned by `compute_scale_zp` lies in `[qmin, qmax]` — in the symmetric, the
asymmetric and the degenerate-scale branches alike. -/
theorem C1_zero_point_in_range (prec : FloatPrec) (qt : QType) (rmin rmax : ℚ)
    (qmin qmax zp : ℤ) (s : ℚ) ( symmetric : Bool) (m : Option ℚ)
    (hlo : dtypeLo qt ≤ qmin) (hhi : qmax ≤ dtypeHi qt)
    (h : compute_scale_zp prec qt rmin rmax qmin qmax symmetric m = .ok (zp, s)) :
    qmin ≤ zp ∧ zp ≤ qmax := by
  obtain ⟨hq1, hq2, hcase⟩ :=
    compute_scale_zp_ok prec qt rmin rmax qmin qmax zp s symmetric m h
  rcases hcase with ⟨-, hzp, -⟩ | ⟨hnd, hseq, hzp⟩
  · subst hzp
    exact ⟨hq1, hq2⟩
  · have hs : 0 < scaleOf rmin rmax qmin qmax m symmetric :=
      lt_of_lt_of_le (tiny_pos prec) hnd
    rw [hseq] at hzp
    obtain ⟨⟨hb1, hb2⟩, hsymeq⟩ := zpReal_bounds rmin rmax qmin qmax m symmetric hq1 hq2 hs
    have hite : (if symmetric = true then ((qmin : ℚ) + (qmax : ℚ)) / 2
        else (qmin : ℚ) - (adjustedRange rmin rmax m symmetric).1 /
          scaleOf rmin rmax qmin qmax m symmetric) =
        (qmin : ℚ) - (adjustedRange rmin rmax m symmetric).1 /
          scaleOf rmin rmax qmin qmax m symmetric := by
      cases symmetric
      · simp
      · simpa using hsymeq rfl
    rw [hite] at hzp
    have hr1 := le_roundHalfEven qmin _ hb1
    have hr2 := roundHalfEven_le qmax _ hb2
    rw [hzp, castWrap_eq_self qt _ (le_trans hlo hr1) (le_trans hr2 hhi)]
    exact ⟨hr1, hr2⟩

theorem C1_zero_point_in_range_witness : (-128 : ℤ) ≤ -43 ∧ (-43 : ℤ) ≤ 127 :=
  C1_zero_point_in_range .fp32 .int8 (-1) 2 (-128) 127 (-43) (1 / 85) false none
    (by decide) (by decide)
    (by norm_num [compute_scale_zp, scaleOf, adjustedRange, tiny, castWrap,
      dtypeLo, dtypeHi, roundHalfEven])

/-- C2: with `symmetric=True` and a scale at least the smallest normal value
of the input precision, `compute_scale_zp` returns
`zero_point = round((qmin + qmax) / 2)` (round half to even), independent of
`rmin`, `rmax` and the scale; with the ranges the range resolver produces in
symmetric mode this is exactly 0 for int8, 128 for uint8, 0 for int16 and
32768 for uint16. -/
theorem C2_symmetric_zero_point (prec : FloatPrec) (qt : QType) (rmin rmax : ℚ)
    (qmin qmax zp : ℤ) (s : ℚ) (m : Option ℚ)
    (hlo : dtypeLo qt ≤ qmin) (hhi : qmax ≤ dtypeHi qt)
    (hnd : tiny prec ≤ scaleOf rmin rmax qmin qmax m true)
    (h : compute_scale_zp prec qt rmin rmax qmin qmax true m = .ok (zp, s)) :
    zp = roundHalfEven (((qmin : ℚ) + (qmax : ℚ)) / 2)
    ∧ (get_qmin_qmax_for_qType .int8 false true = .ok (-127, 127)
        ∧ roundHalfEven ((((-127 : ℤ) : ℚ) + ((127 : ℤ) : ℚ)) / 2) = 0)
    ∧ (get_qmin_qmax_for_qType .uint8 false true = .ok (0, 255)
        ∧ roundHalfEven ((((0 : ℤ) : ℚ) + ((255 : ℤ) : ℚ)) / 2) = 128)
    ∧ (get_qmin_qmax_for_qType .int16 false true = .ok (-32767, 32767)
        ∧ roundHalfEven ((((-32767 : ℤ) : ℚ) + ((32767 : ℤ) : ℚ)) / 2) = 0)
    ∧ (get_qmin_qmax_for_qType .uint16 false true = .ok (0, 65535)
        ∧ roundHalfEven ((((0 : ℤ) : ℚ) + ((65535 : ℤ) : ℚ)) / 2) = 32768) := by
  obtain ⟨hq1, hq2, hcase⟩ :=
    compute_scale_zp_ok prec qt rmin rmax qmin qmax zp s true m h
  refine ⟨?_, ⟨by decide, by norm_num [roundHalfEven, Int.fract]⟩,
    ⟨by decide, by norm_num [roundHalfEven, Int.fract]⟩,
    ⟨by decide, by norm_num [roundHalfEven, Int.fract]⟩,
    ⟨by decide, by norm_num [roundHalfEven, Int.fract]⟩⟩
  rcases hcase with ⟨hdeg, -, -⟩ | ⟨-, hseq, hzp⟩
  · exact absurd hdeg (not_lt.mpr hnd)
  · rw [if_pos rfl] at hzp
    have hcast1 : ((qmin : ℤ) : ℚ) ≤ 0 := by exact_mod_cast hq1
    have hcast2 : (0 : ℚ) ≤ ((qmax : ℤ) : ℚ) := by exact_mod_cast hq2
    have hb1 : (qmin : ℚ) ≤ ((qmin : ℚ) + (qmax : ℚ)) / 2 := by linarith
    have hb2 : ((qmin : ℚ) + (qmax : ℚ)) / 2 ≤ (qmax : ℚ) := by linarith
    have hr1 := le_roundHalfEven qmin _ hb1
    have hr2 := roundHalfEven_le qmax _ hb2
    rw [hzp, castWrap_eq_self qt _ (le_trans hlo hr1) (le_trans hr2 hhi)]

theorem C2_symmetric_zero_point_witness :
    (0 : ℤ) = roundHalfEven ((((-127 : ℤ) : ℚ) + ((127 : ℤ) : ℚ)) / 2)
    ∧ (get_qmin_qmax_for_qType .int8 false true = .ok (-127, 127)
        ∧ roundHalfEven ((((-127 : ℤ) : ℚ) + ((127 : ℤ) : ℚ)) / 2) = 0)
    ∧ (get_qmin_qmax_for_qType .uint8 false true = .ok (0, 255)
        ∧ roundHalfEven ((((0 : ℤ) : ℚ) + ((255 : ℤ) : ℚ)) / 2) = 128)
    ∧ (get_qmin_qmax_for_qType .int16 false true = .ok (-32767, 32767)
        ∧ roundHalfEven ((((-32767 : ℤ) : ℚ) + ((32767 : ℤ) : ℚ)) / 2) = 0)
    ∧ (get_qmin_qmax_for_qType .uint16 false true = .ok (0, 65535)
        ∧ roundHalfEven ((((0 : ℤ) : ℚ) + ((65535 : ℤ) : ℚ)) / 2) = 32768) :=
  C2_symmetric_zero_point .fp32 .int8 (-1) 1 (-127) 127 0 (1 / 127) none
    (by decide) (by decide)
    (by norm_num [scaleOf, adjustedRange, tiny])
    (by norm_num [compute_scale_zp, scaleOf, adjustedRange, tiny, castWrap,
      dtypeLo, dtypeHi, roundHalfEven])

/-- C3: `get_qmin_qmax_for_qType` selects, in priority order: the reduced
table when `reduce_range` is set (regardless of `symmetric`), else the
symmetric table when `symmetric` is set and the type has an entry, else the
full range; and it always fails for the float8 storage type. -/
theorem C3_range_resolver_table :
    (∀ sym : Bool, get_qmin_qmax_for_qType .uint8 true sym = .ok (0, 127))
    ∧ (∀ sym : Bool, get_qmin_qmax_for_qType .int8 true sym = .ok (-64, 64))
    ∧ (∀ sym : Bool, get_qmin_qmax_for_qType .uint16 true sym = .ok (0, 32767))
    ∧ (∀ sym : Bool, get_qmin_qmax_for_qType .int16 true sym = .ok (-16384, 16384))
    ∧ get_qmin_qmax_for_qType .int8 false true = .ok (-127, 127)
    ∧ get_qmin_qmax_for_qType .int16 false true = .ok (-32767, 32767)
    ∧ (∀ sym : Bool, get_qmin_qmax_for_qType .uint8 false sym = .ok (0, 255))
    ∧ (∀ sym : Bool, get_qmin_qmax_for_qType .uint16 false sym = .ok (0, 65535))
    ∧ get_qmin_qmax_for_qType .int8 false false = .ok (-128, 127)
    ∧ get_qmin_qmax_for_qType .int16 false false = .ok (-32768, 32767)
    ∧ (∀ rr sym : Bool, get_qmin_qmax_for_qType .float8e4m3fn rr sym =
        .error (.notImplemented
          "This function is not implemented for float 8 as not needed.")) := by
  decide

/-- C9: whenever the computed scale falls below the smallest normal value of
the input precision, `compute_scale_zp` returns scale 1 and zero point 0; in
particular `rmin = rmax = 0` always lands in this branch, and quantizing the
value 0 with the returned parameters yields 0 for every integer storage
type. -/
theorem C9_degenerate_branch (prec : FloatPrec) (qt : QType) (rmin rmax : ℚ)
    (qmin qmax : ℤ) ( symmetric : Bool) (m : Option ℚ)
    (hq1 : qmin ≤ 0) (hq2 : 0 ≤ qmax)
    (hdeg : scaleOf rmin rmax qmin qmax m symmetric < tiny prec) :
    compute_scale_zp prec qt rmin rmax qmin qmax symmetric m = .ok (0, 1)
    ∧ scaleOf 0 0 qmin qmax none symmetric < tiny prec
    ∧ (qt ≠ .float8e4m3fn → quantize_nparray qt [0] 1 0 none none = .ok [0]) := by
  have hnn := scaleOf_nonneg rmin rmax qmin qmax m symmetric hq1 hq2
  refine ⟨?_, ?_, ?_⟩
  · simp only [compute_scale_zp]
    rw [if_neg (by omega : ¬(qmin > 0 ∨ qmax < 0))]
    rw [if_neg (not_lt.mpr hnn), if_pos hdeg]
  · have h0 : scaleOf 0 0 qmin qmax none symmetric = 0 := by
      cases symmetric <;> simp [scaleOf, adjustedRange]
    rw [h0]
    exact tiny_pos prec
  · intro hqt
    cases qt
    case float8e4m3fn => exact absurd rfl hqt
    all_goals
      simp only [quantize_nparray, get_qmin_qmax_for_qType, ONNX_INT_TYPE_RANGE,
        ONNX_INT_TYPE_SYMMETRIC_RANGE, ONNX_INT_TYPE_REDUCED_RANGE,
        reduceCtorEq, reduceIte]
    all_goals norm_num [castWrap, dtypeLo, dtypeHi, roundHalfEven, cliplowOf, cliphighOf]

/-- C4 counterexample: `quantize_data` on the single float32 value 1.0 with
storage uint8, `symmetric=True`, `reduce_range=True` produces the quantized
value 128, which exceeds the reduced-range bound 127 (the quantizer clips
against the full range `[0, 255]`, and `1.0 / scale = 63.5` rounds up to 64,
landing at `64 + zero_point = 128`). -/
theorem C4_counterexample_uint8_reduced_exceeds :
    quantize_data .fp32 [1] .uint8 true true none none none 0 0
      = .ok (1, 1, 64, 2 / 127, [128]) ∧ ¬((128 : ℤ) ≤ 127) := by
  refine ⟨?_, by decide⟩
  have h1 : get_qmin_qmax_for_qType .uint8 true true = .ok (0, 127) := by decide
  have h2 : compute_scale_zp .fp32 .uint8 (npMin 1 []) (npMax 1 []) 0 127 true none
      = .ok (64, 2 / 127) := by
    norm_num [compute_scale_zp, scaleOf, adjustedRange, npMin, npMax, tiny,
      castWrap, dtypeLo, dtypeHi, roundHalfEven]
  have h3 : quantize_nparray .uint8 [1] (2 / 127) 64 none none = .ok [128] := by
    simp only [quantize_nparray, get_qmin_qmax_for_qType, ONNX_INT_TYPE_RANGE,
      ONNX_INT_TYPE_SYMMETRIC_RANGE, reduceCtorEq, reduceIte]
    norm_num [castWrap, dtypeLo, dtypeHi, roundHalfEven, cliplowOf, cliphighOf]
  have := quantize_data_cons_int .fp32 1 [] .uint8 true true none 0 0
    0 127 64 (2 / 127) [128] (by simp) h1 h2 h3
  simpa [npMin, npMax] using this

/-- C4 amended: for every real-valued input array, `quantize_data` with
storage uint8 and `reduce_range=True` produces quantized values in
`[0, 128]`: the solver targets `[0, 127]` but the quantizer clips against the
full range `[0, 255]`, and a rounding tie at the top of the range can exceed
the reduced bound by exactly one. -/
theorem C4_uint8_reduced_bounds (prec : FloatPrec) (data : List ℚ)
    ( symmetric : Bool) (m : Option ℚ) (std stdF8 : ℚ)
    (rmin rmax : ℚ) (zp : ℤ) (s : ℚ) (qs : List ℤ)
    (h : quantize_data prec data .uint8 symmetric true m none none std stdF8
      = .ok (rmin, rmax, zp, s, qs)) :
    ∀ q ∈ qs, 0 ≤ q ∧ q ≤ 128 := by
  rcases data with _ | ⟨x, xs⟩
  · rw [quantize_data_nil_int prec .uint8 symmetric true m std stdF8 (by simp)] at h
    simp only [Except.ok.injEq, Prod.mk.injEq] at h
    rw [← h.2.2.2.2]
    intro q hq
    cases hq
  · obtain ⟨hrmin, hrmax, qmin, qmax, hg, hc, hn⟩ :=
      quantize_data_cons_int_inv prec x xs .uint8 symmetric true m std stdF8
        rmin rmax zp s qs (by simp) h
    have hg' : get_qmin_qmax_for_qType .uint8 true symmetric = .ok (0, 127) := by
      cases symmetric <;> decide
    rw [hg'] at hg
    simp only [Except.ok.injEq, Prod.mk.injEq] at hg
    obtain ⟨h0, h127⟩ := hg
    subst h0
    subst h127
    have hclip8 : get_qmin_qmax_for_qType .uint8 false true = .ok (0, 255) := by decide
    have hqs := quantize_nparray_int_ok .uint8 (x :: xs) s zp 0 255 qs hclip8 hn
    subst hqs
    intro q hqmem
    obtain ⟨y, hy, hfy⟩ := List.mem_map.mp hqmem
    subst hfy
    have hy1 : npMin x xs ≤ y := npMin_le x xs y hy
    have hy2 : y ≤ npMax x xs := le_npMax x xs y hy
    obtain ⟨ht0, hT0, htm, hTm⟩ := adjustedRange_facts (npMin x xs) (npMax x xs) m symmetric
    obtain ⟨hq1, hq2, hcase⟩ := compute_scale_zp_ok prec .uint8 (npMin x xs) (npMax x xs)
      0 127 zp s symmetric m hc
    rcases hcase with ⟨hdeg, hzp0, hs1⟩ | ⟨hnd, hseq, hzp⟩
    · -- degenerate branch: scale 1, zero point 0, and the whole adjusted
      -- range is smaller than 127 * tiny < 1/2, so every value rounds to 0
      subst hzp0
      subst hs1
      have hsmall : (adjustedRange (npMin x xs) (npMax x xs) m symmetric).2 -
          (adjustedRange (npMin x xs) (npMax x xs) m symmetric).1 < tiny prec * 127 := by
        have := hdeg
        rw [scaleOf] at this
        have h127 : ((127 : ℤ) : ℚ) - ((0 : ℤ) : ℚ) = 127 := by norm_num
        rw [h127] at this
        exact (div_lt_iff (by norm_num)).mp this |>.trans_eq (by ring)
      have htiny : tiny prec * 127 < 1 / 2 := by cases prec <;> norm_num [tiny]
      have hylt : y < 1 / 2 := by linarith
      have hr0 : roundHalfEven (y / 1) ≤ 0 := by
        rw [div_one]
        exact roundHalfEven_le_of 0 y (by push_cast; linarith)
      have hval : min (max (roundHalfEven (y / 1) + 0) 0) 255 = 0 := by omega
      rw [hval]
      rw [castWrap_eq_self .uint8 0 (by decide) (by decide)]
      exact ⟨le_refl 0, by norm_num⟩
    · -- normal branch: pre-clip value in [-1, 128], clipped to [0, 255]
      have hs0 : 0 < scaleOf (npMin x xs) (npMax x xs) 0 127 m symmetric :=
        lt_of_lt_of_le (tiny_pos prec) hnd
      subst hseq
      obtain ⟨⟨hb1, hb2⟩, hsymeq⟩ := zpReal_bounds (npMin x xs) (npMax x xs) 0 127 m
        symmetric hq1 hq2 hs0
      have hite : (if symmetric = true then (((0 : ℤ) : ℚ) + ((127 : ℤ) : ℚ)) / 2
          else ((0 : ℤ) : ℚ) - (adjustedRange (npMin x xs) (npMax x xs) m symmetric).1 /
            scaleOf (npMin x xs) (npMax x xs) 0 127 m symmetric) =
          ((0 : ℤ) : ℚ) - (adjustedRange (npMin x xs) (npMax x xs) m symmetric).1 /
            scaleOf (npMin x xs) (npMax x xs) 0 127 m symmetric := by
        cases symmetric
        · simp
        · simpa using hsymeq rfl
      rw [hite] at hzp
      have hr1 := le_roundHalfEven 0 _ hb1
      have hr2 := roundHalfEven_le 127 _ hb2
      rw [castWrap_eq_self .uint8 _ (by simpa [dtypeLo] using hr1)
        (by simp only [dtypeHi]; omega)] at hzp
      have hzpc : |(zp : ℚ) - (((0 : ℤ) : ℚ) -
          (adjustedRange (npMin x xs) (npMax x xs) m symmetric).1 /
            scaleOf (npMin x xs) (npMax x xs) 0 127 m symmetric)| ≤ 1 / 2 := by
        rw [hzp]
        exact abs_roundHalfEven_sub _
      obtain ⟨hp1, hp2⟩ := qpre_bounds (scaleOf (npMin x xs) (npMax x xs) 0 127 m symmetric)
        hs0 (adjustedRange (npMin x xs) (npMax x xs) m symmetric).1
        (adjustedRange (npMin x xs) (npMax x xs) m symmetric).2 y 0 127 zp
        (scaleOf_mul (npMin x xs) (npMax x xs) 0 127 m symmetric hs0)
        hzpc (by linarith) (by linarith)
      have hval : 0 ≤ min (max (roundHalfEven
            (y / scaleOf (npMin x xs) (npMax x xs) 0 127 m symmetric) + zp) 0) 255 ∧
          min (max (roundHalfEven
            (y / scaleOf (npMin x xs) (npMax x xs) 0 127 m symmetric) + zp) 0) 255 ≤ 128 := by
        omega
      rw [castWrap_eq_self .uint8 _ (by simpa [dtypeLo] using hval.1)
        (by simp only [dtypeHi]; omega)]
      exact hval

theorem C4_uint8_reduced_bounds_witness : (0 : ℤ) ≤ 128 ∧ (128 : ℤ) ≤ 128 := by
  have h1 : get_qmin_qmax_for_qType .uint8 true true = .ok (0, 127) := by decide
  have h2 : compute_scale_zp .fp32 .uint8 (npMin 1 []) (npMax 1 []) 0 127 true none
      = .ok (64, 2 / 127) := by
    norm_num [compute_scale_zp, scaleOf, adjustedRange, npMin, npMax, tiny,
      castWrap, dtypeLo, dtypeHi, roundHalfEven]
  have h3 : quantize_nparray .uint8 [1] (2 / 127) 64 none none = .ok [128] := by
    simp only [quantize_nparray, get_qmin_qmax_for_qType, ONNX_INT_TYPE_RANGE,
      ONNX_INT_TYPE_SYMMETRIC_RANGE, reduceCtorEq, reduceIte]
    norm_num [castWrap, dtypeLo, dtypeHi, roundHalfEven, cliplowOf, cliphighOf]
  exact C4_uint8_reduced_bounds .fp32 [1] true none 0 0 (npMin 1 []) (npMax 1 [])
    64 (2 / 127) [128]
    (quantize_data_cons_int .fp32 1 [] .uint8 true true none 0 0
      0 127 64 (2 / 127) [128] (by simp) h1 h2 h3)
    128 (by simp)

/-- C5 counterexample: on an empty data array the array quantizer
`quantize_nparray` is still invoked by `quantize_data` (line 379 runs
unconditionally), contradicting the claim that neither the solver nor the
quantizer is invoked. -/
theorem C5_counterexample_quantizer_invoked :
    Helper.quantize_nparray ∈ quantize_data_invoked ([] : List ℚ) .int8 := by
  decide

/-- C5 amended: `quantize_data` on an empty array with an integer storage
type returns `rmin = 0`, `rmax = 0`, `zero_point = 0`, `scale = 1` and an
empty quantized array, without invoking the parameter solver; the array
quantizer is invoked, on the empty array, producing the empty result. -/
theorem C5_empty_array_result (prec : FloatPrec) (qt : QType)
    ( symmetric reduce_range : Bool) (m : Option ℚ) (std stdF8 : ℚ)
    (hqt : qt = .int8 ∨ qt = .uint8 ∨ qt = .int16 ∨ qt = .uint16) :
    quantize_data prec [] qt symmetric reduce_range m none none std stdF8
      = .ok (0, 0, 0, 1, [])
    ∧ quantize_data_invoked [] qt = [Helper.quantize_nparray] := by
  refine ⟨quantize_data_nil_int prec qt symmetric reduce_range m std stdF8 hqt, ?_⟩
  rcases hqt with h | h | h | h <;> subst h <;> decide

theorem C5_empty_array_result_witness :
    quantize_data .fp32 [] .int8 false false none none none 0 0
      = .ok (0, 0, 0, 1, [])
    ∧ quantize_data_invoked [] .int8 = [Helper.quantize_nparray] :=
  C5_empty_array_result .fp32 .int8 false false none 0 0 (by simp)

/-- C6 counterexample: on `data = [-1, 0, 2]` with int8, `symmetric=True`,
`reduce_range=False`, `quantize_data` returns `rmin = -1` (the data minimum),
not the symmetrized `-2` the claim states; all other claimed values match. -/
theorem C6_counterexample_rmin_not_symmetrized :
    quantize_data .fp32 [-1, 0, 2] .int8 true false none none none 0 0
      = .ok (-1, 2, 0, 2 / 127, [-64, 0, 127]) ∧ ((-1 : ℚ) ≠ -2) := by
  refine ⟨?_, by norm_num⟩
  have h1 : get_qmin_qmax_for_qType .int8 false true = .ok (-127, 127) := by decide
  have h2 : compute_scale_zp .fp32 .int8 (npMin (-1) [0, 2]) (npMax (-1) [0, 2])
      (-127) 127 true none = .ok (0, 2 / 127) := by
    norm_num [compute_scale_zp, scaleOf, adjustedRange, npMin, npMax, tiny,
      castWrap, dtypeLo, dtypeHi, roundHalfEven]
  have h3 : quantize_nparray .int8 [-1, 0, 2] (2 / 127) 0 none none
      = .ok [-64, 0, 127] := by
    simp only [quantize_nparray, get_qmin_qmax_for_qType, ONNX_INT_TYPE_RANGE,
      ONNX_INT_TYPE_SYMMETRIC_RANGE, reduceCtorEq, reduceIte]
    norm_num [castWrap, dtypeLo, dtypeHi, roundHalfEven, cliplowOf, cliphighOf]
  have := quantize_data_cons_int .fp32 (-1) [0, 2] .int8 true false none 0 0
    (-127) 127 0 (2 / 127) [-64, 0, 127] (by simp) h1 h2 h3
  simpa [npMin, npMax] using this

/-- C6 amended: on `data = [-1, 0, 2]` (float32) with int8,
`symmetric=True`, `reduce_range=False`, `quantize_data` uses
`qmin = -127, qmax = 127`, symmetrizes the range to `[-2, 2]` internally, and
returns `rmin = -1` (the data minimum), `rmax = 2`, `scale = 2/127`,
`zero_point = 0` and quantized values `[-64, 0, 127]`. -/
theorem C6_end_to_end_example :
    quantize_data .fp32 [-1, 0, 2] .int8 true false none none none 0 0
      = .ok (-1, 2, 0, 2 / 127, [-64, 0, 127])
    ∧ get_qmin_qmax_for_qType .int8 false true = .ok (-127, 127)
    ∧ adjustedRange (-1) 2 none true = (-2, 2) := by
  refine ⟨?_, by decide, by norm_num [adjustedRange]⟩
  have h1 : get_qmin_qmax_for_qType .int8 false true = .ok (-127, 127) := by decide
  have h2 : compute_scale_zp .fp32 .int8 (npMin (-1) [0, 2]) (npMax (-1) [0, 2])
      (-127) 127 true none = .ok (0, 2 / 127) := by
    norm_num [compute_scale_zp, scaleOf, adjustedRange, npMin, npMax, tiny,
      castWrap, dtypeLo, dtypeHi, roundHalfEven]
  have h3 : quantize_nparray .int8 [-1, 0, 2] (2 / 127) 0 none none
      = .ok [-64, 0, 127] := by
    simp only [quantize_nparray, get_qmin_qmax_for_qType, ONNX_INT_TYPE_RANGE,
      ONNX_INT_TYPE_SYMMETRIC_RANGE, reduceCtorEq, reduceIte]
    norm_num [castWrap, dtypeLo, dtypeHi, roundHalfEven, cliplowOf, cliphighOf]
  have := quantize_data_cons_int .fp32 (-1) [0, 2] .int8 true false none 0 0
    (-127) 127 0 (2 / 127) [-64, 0, 127] (by simp) h1 h2 h3
  simpa [npMin, npMax] using this

/-- C7 counterexample: with int8 in asymmetric full-range mode
(`qmin = -128` below the quantizer's clip floor `-127`), the input
`x = rmin = -100.4` (with `rmax = 154.6`, so scale is exactly 1) quantizes to
`-128` pre-clip, is clipped to `-127`, and dequantizes to `-99`: the
round-trip error is `1.4 > scale = 1`. -/
theorem C7_counterexample_roundtrip_exceeds_scale :
    compute_scale_zp .fp32 .int8 (-502 / 5) (773 / 5) (-128) 127 false none
      = .ok (-28, 1)
    ∧ quantize_nparray .int8 [-502 / 5] 1 (-28) none none = .ok [-127]
    ∧ ¬(|(1 : ℚ) * (((-127 : ℤ) : ℚ) - ((-28 : ℤ) : ℚ)) - (-502 / 5)| ≤ 1) := by
  refine ⟨?_, ?_, ?_⟩
  · norm_num [compute_scale_zp, scaleOf, adjustedRange, tiny, castWrap,
      dtypeLo, dtypeHi, roundHalfEven]
  · simp only [quantize_nparray, get_qmin_qmax_for_qType, ONNX_INT_TYPE_RANGE,
      ONNX_INT_TYPE_SYMMETRIC_RANGE, reduceCtorEq, reduceIte]
    norm_num [castWrap, dtypeLo, dtypeHi, roundHalfEven, cliplowOf, cliphighOf]
  · rw [show (1 : ℚ) * (((-127 : ℤ) : ℚ) - ((-28 : ℤ) : ℚ)) - (-502 / 5) = 7 / 5 by
      push_cast; ring]
    rw [abs_of_pos (by norm_num)]
    norm_num

/-- C7 amended: for `x ∈ [rmin, rmax]`, with `(zero_point, scale)` from a
non-degenerate `compute_scale_zp` whose `[qmin, qmax]` is nested inside the
quantizer's fixed clip window, the dequantized value
`scale * (quantize(x) - zero_point)` differs from `x` by at most `scale`
(the proof gives `scale / 2`).  The nesting hypothesis fails exactly for
int8/int16 with `reduce_range=False, symmetric=False`, and the degenerate
branch is excluded; the counterexample shows the bound fails without the
nesting hypothesis. -/
theorem C7_roundtrip_bound (prec : FloatPrec) (qt : QType) (rmin rmax x : ℚ)
    (qmin qmax Qmin Qmax zp q : ℤ) (s : ℚ) ( symmetric : Bool) (m : Option ℚ)
    (hlo : dtypeLo qt ≤ qmin) (hhi : qmax ≤ dtypeHi qt)
    (hclip : get_qmin_qmax_for_qType qt false true = .ok (Qmin, Qmax))
    (hn1 : Qmin ≤ qmin) (hn2 : qmax ≤ Qmax)
    (hnd : tiny prec ≤ scaleOf rmin rmax qmin qmax m symmetric)
    (h : compute_scale_zp prec qt rmin rmax qmin qmax symmetric m = .ok (zp, s))
    (hx1 : rmin ≤ x) (hx2 : x ≤ rmax)
    (hq : quantize_nparray qt [x] s zp none none = .ok [q]) :
    |s * ((q : ℚ) - (zp : ℚ)) - x| ≤ s := by
  obtain ⟨hq1, hq2, hcase⟩ :=
    compute_scale_zp_ok prec qt rmin rmax qmin qmax zp s symmetric m h
  rcases hcase with ⟨hdeg, -, -⟩ | ⟨-, hseq, hzp⟩
  · exact absurd hdeg (not_lt.mpr hnd)
  · subst hseq
    set S := scaleOf rmin rmax qmin qmax m symmetric with hSdef
    have hs0 : 0 < S := lt_of_lt_of_le (tiny_pos prec) hnd
    obtain ⟨⟨hb1, hb2⟩, hsymeq⟩ :=
      zpReal_bounds rmin rmax qmin qmax m symmetric hq1 hq2 hs0
    have hite : (if symmetric = true then ((qmin : ℚ) + (qmax : ℚ)) / 2
        else (qmin : ℚ) - (adjustedRange rmin rmax m symmetric).1 / S) =
        (qmin : ℚ) - (adjustedRange rmin rmax m symmetric).1 / S := by
      cases symmetric
      · simp
      · simpa using hsymeq rfl
    rw [hite] at hzp
    have hr1 := le_roundHalfEven qmin _ hb1
    have hr2 := roundHalfEven_le qmax _ hb2
    rw [castWrap_eq_self qt _ (le_trans hlo hr1) (le_trans hr2 hhi)] at hzp
    have hzpc : |(zp : ℚ) -
        ((qmin : ℚ) - (adjustedRange rmin rmax m symmetric).1 / S)| ≤ 1 / 2 := by
      rw [hzp]
      exact abs_roundHalfEven_sub _
    have hqs := quantize_nparray_int_ok qt [x] S zp Qmin Qmax [q] hclip hq
    simp only [List.map_cons, List.map_nil, List.cons.injEq, and_true] at hqs
    obtain ⟨hd1, hd2, hQ1, hQ2⟩ := clip_range_in_dtype qt Qmin Qmax hclip
    have hclipmem : Qmin ≤ min (max (roundHalfEven (x / S) + zp) Qmin) Qmax ∧
        min (max (roundHalfEven (x / S) + zp) Qmin) Qmax ≤ Qmax := by omega
    rw [castWrap_eq_self qt _ (le_trans hd1 hclipmem.1) (le_trans hclipmem.2 hd2)] at hqs
    subst hqs
    obtain ⟨ht0, hT0, htm, hTm⟩ := adjustedRange_facts rmin rmax m symmetric
    have hcore := roundtrip_core S hs0 (adjustedRange rmin rmax m symmetric).1
      (adjustedRange rmin rmax m symmetric).2 x qmin qmax Qmin Qmax zp
      (scaleOf_mul rmin rmax qmin qmax m symmetric hs0) hzpc hn1 hn2
      (by linarith) (by linarith)
    exact le_trans hcore (by linarith)

theorem C7_roundtrip_bound_witness :
    |(2 / 127 : ℚ) * (((64 : ℤ) : ℚ) - ((0 : ℤ) : ℚ)) - 1| ≤ 2 / 127 := by
  have hc : compute_scale_zp .fp32 .int8 (-1) 2 (-127) 127 true none
      = .ok (0, 2 / 127) := by
    norm_num [compute_scale_zp, scaleOf, adjustedRange, tiny, castWrap,
      dtypeLo, dtypeHi, roundHalfEven]
  have hq : quantize_nparray .int8 [1] (2 / 127) 0 none none = .ok [64] := by
    simp only [quantize_nparray, get_qmin_qmax_for_qType, ONNX_INT_TYPE_RANGE,
      ONNX_INT_TYPE_SYMMETRIC_RANGE, reduceCtorEq, reduceIte]
    norm_num [castWrap, dtypeLo, dtypeHi, roundHalfEven, cliplowOf, cliphighOf]
  exact C7_roundtrip_bound .fp32 .int8 (-1) 2 1 (-127) 127 (-127) 127 0 64 (2 / 127)
    true none (by decide) (by decide) (by decide) (by decide) (by decide)
    (by norm_num [scaleOf, adjustedRange, tiny]) hc (by norm_num) (by norm_num) hq

/-- C8 (code bug): on all-zero float32 data the float8 path computes
`std = 0`, hence `scale = std / std_f8 = 0`; the reference QuantizeLinear
then divides `0 / 0 = NaN` in IEEE float arithmetic, the E4M3FN encoder
produces the NaN code 127, and the integrity check (low seven bits all ones)
raises the fatal error — the check does trigger on all-zero data.  The first
conjunct records the solver's contract: zero point exactly 0 and
`scale = std / std_f8`. -/
theorem C8_all_zero_float8_raises (std stdF8 : ℚ)
    (hnn : 0 ≤ std) (hv : std ^ 2 = npVariance [0, 0, 0]) :
    compute_scale_zp_float8 std stdF8 = (0, std / stdF8)
    ∧ quantize_data .fp32 [0, 0, 0] .float8e4m3fn false false none none none std stdF8
      = .error (.runtimeError "One of the quantized value is NaN data") := by
  have hvar : npVariance [0, 0, 0] = 0 := by
    norm_num [npVariance, npMean]
  have h0 : std = 0 := by
    have h1 : std ^ 2 = 0 := by rw [hv, hvar]
    exact pow_eq_zero_iff two_ne_zero |>.mp h1
  subst h0
  refine ⟨rfl, ?_⟩
  simp [quantize_data, compute_scale_zp_float8, quantize_nparray, floatDiv,
    e4m3fnEncode, npMin, npMax]

theorem C8_all_zero_float8_raises_witness :
    compute_scale_zp_float8 0 1 = (0, (0 : ℚ) / 1)
    ∧ quantize_data .fp32 [0, 0, 0] .float8e4m3fn false false none none none 0 1
      = .error (.runtimeError "One of the quantized value is NaN data") :=
  C8_all_zero_float8_raises 0 1 (le_refl 0) (by norm_num [npVariance, npMean])

/-- C10 counterexample: a caller-supplied `high = -128` inverts the clip
window (`cliphigh = -128 < cliplow = -127`), and numpy's clip then outputs
the high bound: the int8 quantized array contains `-128`, contradicting the
claim. -/
theorem C10_counterexample_inverted_window :
    quantize_nparray .int8 [0] 1 0 none (some (-128)) = .ok [-128]
    ∧ ((-128 : ℤ) ∈ [(-128 : ℤ)]) := by
  refine ⟨?_, by simp⟩
  simp only [quantize_nparray, get_qmin_qmax_for_qType, ONNX_INT_TYPE_RANGE,
    ONNX_INT_TYPE_SYMMETRIC_RANGE, reduceCtorEq, reduceIte]
  norm_num [castWrap, dtypeLo, dtypeHi, roundHalfEven, cliplowOf, cliphighOf]

/-- C10 amended: `quantize_nparray` clips against the fixed range obtained
with `reduce_range=False, symmetric=True`, independent of the caller's
flags; caller `low`/`high` bounds only narrow that window, and provided the
effective window `[max(qmin, low), min(qmax, high)]` is non-empty every
output lies in that effective window — hence also within `[Qmin, Qmax]`, so
an int8 quantized array never contains `-128`.  With an inverted window (see
the counterexample) all outputs equal the effective high bound, which may
lie outside. -/
theorem C10_clip_window_bounds (qt : QType) (arr : List ℚ) (scale : ℚ)
    (zp : ℤ) (low high : Option ℤ) (Qmin Qmax : ℤ) (qs : List ℤ)
    (hclip : get_qmin_qmax_for_qType qt false true = .ok (Qmin, Qmax))
    (hwin : cliplowOf Qmin low ≤ cliphighOf Qmax high)
    (hq : quantize_nparray qt arr scale zp low high = .ok qs) :
    ∀ q ∈ qs,
      cliplowOf Qmin low ≤ q ∧ q ≤ cliphighOf Qmax high
      ∧ Qmin ≤ q ∧ q ≤ Qmax ∧ (qt = .int8 → q ≠ -128) := by
  obtain ⟨hd1, hd2, hQ1, hQ2⟩ := clip_range_in_dtype qt Qmin Qmax hclip
  have hqt : qt ≠ .float8e4m3fn := by
    intro h0
    rw [h0] at hclip
    simp [get_qmin_qmax_for_qType] at hclip
  rw [quantize_nparray, if_neg hqt, hclip] at hq
  simp only [Except.ok.injEq] at hq
  intro q hqmem
  rw [← hq] at hqmem
  obtain ⟨x, hx, hfx⟩ := List.mem_map.mp hqmem
  subst hfx
  set cl := cliplowOf Qmin low with hcl
  set ch := cliphighOf Qmax high with hch
  have hcl1 : Qmin ≤ cl := by
    rcases low with _ | l <;> simp only [hcl, cliplowOf] <;> omega
  have hch2 : ch ≤ Qmax := by
    rcases high with _ | hv <;> simp only [hch, cliphighOf] <;> omega
  have hw1 : cl ≤ min (max (roundHalfEven (x / scale) + zp) cl) ch := by omega
  have hw2 : min (max (roundHalfEven (x / scale) + zp) cl) ch ≤ ch := by omega
  have hv1 : Qmin ≤ min (max (roundHalfEven (x / scale) + zp) cl) ch := by omega
  have hv2 : min (max (roundHalfEven (x / scale) + zp) cl) ch ≤ Qmax := by omega
  rw [castWrap_eq_self qt _ (le_trans hd1 hv1) (le_trans hv2 hd2)]
  refine ⟨hw1, hw2, hv1, hv2, ?_⟩
  intro he
  subst he
  have h8 : get_qmin_qmax_for_qType .int8 false true = .ok (-127, 127) := by decide
  rw [h8] at hclip
  simp only [Except.ok.injEq, Prod.mk.injEq] at hclip
  omega

theorem C10_clip_window_bounds_witness :
    cliplowOf (-127) (some 5) ≤ 5 ∧ (5 : ℤ) ≤ cliphighOf 127 (some 100)
    ∧ (-127 : ℤ) ≤ 5 ∧ (5 : ℤ) ≤ 127
    ∧ (QType.int8 = .int8 → (5 : ℤ) ≠ -128) := by
  have hq : quantize_nparray .int8 [0] 1 0 (some 5) (some 100) = .ok [5] := by
    simp only [quantize_nparray, get_qmin_qmax_for_qType, ONNX_INT_TYPE_RANGE,
      ONNX_INT_TYPE_SYMMETRIC_RANGE, reduceCtorEq, reduceIte]
    norm_num [castWrap, dtypeLo, dtypeHi, roundHalfEven, cliplowOf, cliphighOf]
  exact C10_clip_window_bounds .int8 [0] 1 0 (some 5) (some 100) (-127) 127 [5]
    (by decide) (by decide) hq 5 (by simp)

theorem C9_degenerate_branch_witness :
    compute_scale_zp .fp32 .int8 0 0 (-128) 127 false none = .ok (0, 1)
    ∧ scaleOf 0 0 (-128) 127 none false < tiny .fp32
    ∧ (QType.int8 ≠ .float8e4m3fn → quantize_nparray .int8 [0] 1 0 none none = .ok [0]) :=
  C9_degenerate_branch .fp32 .int8 0 0 (-128) 127 false none
    (by decide) (by decide)
    (by norm_num [scaleOf, adjustedRange, tiny])

end QuantUtils
